import Mathlib

/-!
# Verification of the agent-mail-cli local session / identity subsystem

Shallow embedding of the session-tracking and identity-resolution layer of
`src/agent_mail_cli/cli.py`.  Timestamps are modelled as integers (seconds);
the on-disk session directory is modelled as an association list keyed by
`(project_key, agent_name)`; a stored file is either a well-formed record or
`malformed` (unparseable JSON / invalid timestamp).  Effectful boundaries are
passed in explicitly: the current clock (`now`), the current process id, an
OS process-liveness oracle (`alive`), the process-ancestry check (`anc`,
modelling `_pid_in_ancestry` as a black-box boolean), and the outcome of the
remote `list_agents` RPC as an `Except` value (an `AgentMailError` raised by
the transport is the `.error` case).  A filesystem fault during
`_write_session`'s final `write_text` is injected through a `writeOk` flag.
-/

namespace AgentMail

/-- One session record as serialised by `_write_session` (`agent`, `project`,
`started_at`, `expires_at`, `pid`). -/
structure SessionRecord where
  agent : String
  project : String
  started_at : Int
  expires_at : Int
  pid : Nat
deriving Repr, DecidableEq

/-- Contents of one on-disk session file: a parsed record, or data on which
`json.loads` / `datetime.fromisoformat` raises (caught in `_read_session`). -/
inductive StoredFile where
  | malformed
  | record (r : SessionRecord)
deriving Repr, DecidableEq

/-- The session directory: files keyed by `(project_key, agent_name)`
(the code keys by `(sha256(project)[:12], agent_name + ".json")`; the hash is
injective for our purposes and not itself under test). -/
abbrev Store := List ((String × String) × StoredFile)

/-- Look up the file for one `(project_key, agent_name)` pair. -/
def Store.get : Store → String → String → Option StoredFile
  | [], _, _ => none
  | (k, f) :: rest, pk, an =>
    if k = (pk, an) then some f else Store.get rest pk an

/-- Delete the file for one `(project_key, agent_name)` pair
(`Path.unlink`). -/
def Store.erase (s : Store) (pk an : String) : Store :=
  s.filter (fun e => decide (e.1 ≠ (pk, an)))

/-- Create or overwrite the file for one pair (`Path.write_text`). -/
def Store.set (s : Store) (pk an : String) (f : StoredFile) : Store :=
  Store.erase s pk an ++ [((pk, an), f)]

/-- Python truthiness of an optional string: `None` and `""` are falsy. -/
def strOptTruthy : Option String → Option String
  | none => none
  | some s => if s = "" then none else some s

/-- Model of `_read_session`: returns the parsed record if present and unexpired;
deletes an expired file as a side effect; malformed data reads as absent.
Returns the (possibly updated) store alongside the result, since the
expired-cleanup is a filesystem side effect. -/
def readSession (store : Store) (now : Int) (pk an : String) :
    Option SessionRecord × Store :=
  match Store.get store pk an with
  | none => (none, store)
  | some .malformed => (none, store)
  | some (.record r) =>
    if r.expires_at < now then (none, Store.erase store pk an)
    else (some r, store)

/-- The pure core of `_write_session`: builds the new record with
`started_at = now` and `expires_at = now + ttl`, carries `started_at`
forward from an existing unexpired record, and writes the file.
`stablePid` stands for the grandparent-pid walk, whose result is not under
test.  Returns the record together with the updated store. -/
def writeSessionCore (store : Store) (now : Int) (stablePid : Nat)
    (pk an : String) (ttl : Int) : SessionRecord × Store :=
  let r0 := readSession store now pk an
  let base : SessionRecord :=
    { agent := an, project := pk, started_at := now,
      expires_at := now + ttl, pid := stablePid }
  let data : SessionRecord :=
    match r0.1 with
    | some existing => { base with started_at := existing.started_at }
    | none => base
  (data, Store.set r0.2 pk an (.record data))

/-- Model of `_write_session`: the final `write_text` is not guarded by any handler,
so a filesystem fault there (injected as `writeOk = false`) raises to the
caller.  The embedded `_read_session` swallows its own I/O errors. -/
def writeSession (store : Store) (now : Int) (stablePid : Nat)
    (writeOk : Bool) (pk an : String) (ttl : Int) :
    Except Unit (SessionRecord × Store) :=
  if writeOk then .ok (writeSessionCore store now stablePid pk an ttl)
  else .error ()

/-- Model of `_clear_session`: delete the file if present, report whether it was. -/
def clearSession (store : Store) (pk an : String) : Bool × Store :=
  if (Store.get store pk an).isSome then (true, Store.erase store pk an)
  else (false, store)

/-- Model of `_check_session_conflict`: read the record; no conflict if absent, if
owned by the current process, or if the owning process is dead (in which
case the stale file is cleared).  A record whose `pid` field is falsy (0)
skips the liveness probe and is reported as a conflict. -/
def checkSessionConflict (store : Store) (now : Int) (currentPid : Nat)
    (alive : Nat → Bool) (pk an : String) :
    Option SessionRecord × Store :=
  let r0 := readSession store now pk an
  match r0.1 with
  | none => (none, r0.2)
  | some s =>
    if s.pid = currentPid then (none, r0.2)
    else if s.pid ≠ 0 ∧ alive s.pid = false then
      (none, (clearSession r0.2 pk an).2)
    else (some s, r0.2)

/-- Lexicographic `≤` on code-point sequences: Python's `<=` on strings
(compared code point by code point, shorter run wins on a tie). -/
def charListLe : List Char → List Char → Bool
  | [], _ => true
  | _ :: _, [] => false
  | a :: as, b :: bs =>
    if a < b then true
    else if b < a then false
    else charListLe as bs

/-- Boolean lexicographic `≤` on strings, matching Python string
comparison (used through `sorted(...)` and `list.sort(...)`). -/
def strLeB (a b : String) : Bool := charListLe a.data b.data

/-- Whether the first code-point sequence is an initial run of the
second. -/
def hasLead : List Char → List Char → Bool
  | [], _ => true
  | _ :: _, [] => false
  | a :: as, b :: bs => a = b && hasLead as bs

/-- Python `name.startswith("Deleted-")`: the logical-deletion marker
test of `_find_resumable_agent`. -/
def deletedMarked (s : String) : Bool := hasLead "Deleted-".data s.data

/-- Stable insertion: place `x` before the first element `y` with
`le x y`. -/
def insertBy (le : α → α → Bool) (x : α) : List α → List α
  | [] => [x]
  | y :: ys => if le x y then x :: y :: ys else y :: insertBy le x ys

/-- Stable sort with respect to a boolean "comes-no-later-than" relation:
for Python's `sorted(files)` take `le := strLeB`; for
`sort(key=k, reverse=True)` take `le a b := k b ≤ k a` (a stable descending
sort, as Python's reverse sort is). -/
def sortBy (le : α → α → Bool) : List α → List α
  | [] => []
  | x :: xs => insertBy le x (sortBy le xs)

/-- The project's session files in the order `sorted(glob("*.json"))`
produces: `(file stem, contents)` pairs sorted by agent name. -/
def projectFiles (store : Store) (pk : String) : List (String × StoredFile) :=
  sortBy (fun a b => strLeB a.1 b.1)
    ((store.filter (fun e => decide (e.1.1 = pk))).map (fun e => (e.1.2, e.2)))

/-- The loop of `_detect_agent_from_session`: skip unreadable/unparseable
files, return the stem of the first file whose stored pid passes the
ancestry check. -/
def detectLoop (anc : Nat → Bool) : List (String × StoredFile) → Option String
  | [] => none
  | (_, .malformed) :: rest => detectLoop anc rest
  | (nm, .record r) :: rest =>
    if anc r.pid then some nm else detectLoop anc rest

/-- Model of `_detect_agent_from_session`: with exactly one session file its stem is
returned with no ancestry check; with several, the first whose pid is an
ancestor of the current process wins; otherwise no answer.  `anc` models
`_pid_in_ancestry` as a boolean oracle. -/
def detectAgentFromSession (store : Store) (anc : Nat → Bool)
    (pk : String) : Option String :=
  if projectFiles store pk = [] then none
  else if (projectFiles store pk).length = 1 then
    ((projectFiles store pk).head?).map Prod.fst
  else detectLoop anc (projectFiles store pk)

/-- Whether one session file passes the ancestry test of the
`_detect_agent_from_session` loop (unparseable files never do). -/
def fileMatches (anc : Nat → Bool) : StoredFile → Bool
  | .malformed => false
  | .record r => anc r.pid

/-- One element of the remote `list_agents` response, modelled by the three
fields `_find_resumable_agent` reads (each may be missing from the JSON
object). -/
structure AgentInfo where
  name : Option String
  last_active_ts : Option String
  contact_policy : Option String
deriving Repr, DecidableEq

/-- The filter of `_find_resumable_agent`: drop agents whose name (default
`""`) starts with the deletion marker `"Deleted-"` and agents whose
`contact_policy` equals `"block_all"` (a missing policy passes). -/
def activeAgents (agents : List AgentInfo) : List AgentInfo :=
  agents.filter (fun a =>
    !(deletedMarked (a.name.getD ""))
      && !(a.contact_policy = some "block_all" : Bool))

/-- Comparator of the descending activity sort: `a` comes no later than
`b` when `b`'s last-activity key is `≤` `a`'s. -/
def agentTsGe (a b : AgentInfo) : Bool :=
  strLeB (b.last_active_ts.getD "") (a.last_active_ts.getD "")

/-- Model of `active_agents.sort(key=last_active_ts, reverse=True)`: stable
descending sort by the `last_active_ts` string (default `""`). -/
def sortAgentsDesc (l : List AgentInfo) : List AgentInfo :=
  sortBy agentTsGe l

/-- Pure core of `_find_resumable_agent` on an already-fetched agent list:
filter, sort descending by last activity, take the top (none if the
filtered list is empty). -/
def findResumableCore (agents : List AgentInfo) : Option AgentInfo :=
  (sortAgentsDesc (activeAgents agents)).head?

/-- Model of `_find_resumable_agent`: calls `client.list_agents` with no exception
handler, so a transport/application error (`.error`) propagates. -/
def findResumableAgent (listAgentsResult : Except String (List AgentInfo)) :
    Except String (Option AgentInfo) :=
  match listAgentsResult with
  | .error e => .error e
  | .ok agents => .ok (findResumableCore agents)

/-- The environment override of `_resolve_agent_name`:
`os.environ.get("AGENT_MAIL_AGENT") or os.environ.get("AGENT_NAME")`,
with Python truthiness (unset or empty is falsy). -/
def envPick (envMailAgent envName : Option String) : Option String :=
  match strOptTruthy envMailAgent with
  | some e => some e
  | none => strOptTruthy envName

/-- The session signal of `_resolve_agent_name`: `if session_agent:` keeps
Python truthiness on the detected stem. -/
def sessionPick (store : Store) (anc : Nat → Bool) (pk : String) :
    Option String :=
  match detectAgentFromSession store anc pk with
  | some s => strOptTruthy (some s)
  | none => none

/-- Model of `_resolve_agent_name`: explicit argument, then environment override
(`env`), then local session match (`session`), then — when a client was
passed — the remote most-recently-active fallback (`recent`), else
`(None, None)`.  The remote call is unguarded, so its error propagates
(hence the `Except` result). -/
def resolveAgentName (store : Store) (anc : Nat → Bool)
    (envMailAgent envName : Option String) (explicit : Option String)
    (client : Option (Except String (List AgentInfo))) (pk : String) :
    Except String (Option String × Option String) :=
  match strOptTruthy explicit with
  | some a => .ok (some a, none)
  | none =>
    match envPick envMailAgent envName with
    | some e => .ok (some e, some "env")
    | none =>
      match sessionPick store anc pk with
      | some s => .ok (some s, some "session")
      | none =>
        match client with
        | some la =>
          match findResumableAgent la with
          | .error e => .error e
          | .ok (some r) => .ok (r.name, some "recent")
          | .ok none => .ok (none, none)
        | none => .ok (none, none)

/-- Model of the `session heartbeat` command: read the session; absent (including
expired-and-lazily-deleted or malformed) reports `no_session` and exits 1;
otherwise `_write_session` extends the TTL and the command exits 0 (a
filesystem fault in the write escapes to `handle_error`, which exits 1).
Result is `(exit code, final store)`. -/
def sessionHeartbeat (store : Store) (now : Int) (stablePid : Nat)
    (writeOk : Bool) (pk agent : String) (ttl : Int) : Nat × Store :=
  let r0 := readSession store now pk agent
  match r0.1 with
  | none => (1, r0.2)
  | some _ =>
    match writeSession r0.2 now stablePid writeOk pk agent ttl with
    | .ok (_, st) => (0, st)
    | .error _ => (1, r0.2)

/-- Outcome of the `register` command, restricted to what the session layer
decides: refusal with the conflicting pid and the remaining time to expiry
(the CLI renders `expires_at - now` through `_format_session_expiry`),
successful registration under the server-assigned name, or a remote error
surfaced by `handle_error`. -/
inductive RegisterOutcome where
  | conflict (pid : Nat) (expiresIn : Int)
  | registered (nm : String)
  | rpcError (e : String)
deriving Repr, DecidableEq

/-- The tail of `register` after conflict checking: call the remote
`register_agent` (its failure is surfaced), then create/update the local
session file under the returned name. -/
def registerCore (store : Store) (now : Int) (stablePid : Nat)
    (remote : Except String String) (pk : String) (ttl : Int) :
    RegisterOutcome × Store :=
  match remote with
  | .error e => (.rpcError e, store)
  | .ok nm =>
    (.registered nm, (writeSessionCore store now stablePid pk nm ttl).2)

/-- The `register` command's session-conflict protocol: when an effective
name is given and `--force` is not set, `_check_session_conflict` runs
first and a detected conflict aborts with the stored pid and remaining
time-to-expiry; otherwise registration proceeds. -/
def register (store : Store) (now : Int) (currentPid : Nat)
    (alive : Nat → Bool) (stablePid : Nat)
    (effectiveName : Option String) (force : Bool)
    (remote : Except String String) (pk : String) (ttl : Int) :
    RegisterOutcome × Store :=
  match strOptTruthy effectiveName, force with
  | some nm, false =>
    let c := checkSessionConflict store now currentPid alive pk nm
    match c.1 with
    | some s => (.conflict s.pid (s.expires_at - now), c.2)
    | none => registerCore c.2 now stablePid remote pk ttl
  | _, _ => registerCore store now stablePid remote pk ttl

/-- The agent names of a project's session files, in sorted filename order
(the order `session_status` effectively visits them in our model). -/
def Store.agentsOf (s : Store) (pk : String) : List String :=
  sortBy strLeB ((s.filter (fun e => decide (e.1.1 = pk))).map (fun e => e.1.2))

/-- The listing loop of `session_status` (no agent argument): one
`_read_session` per file, collecting the live records; each read's lazy
deletion updates the store seen by later reads. -/
def listSessionsGo (now : Int) (pk : String) :
    List String → Store → List SessionRecord × Store
  | [], st => ([], st)
  | an :: rest, st =>
    let r := readSession st now pk an
    let tail := listSessionsGo now pk rest r.2
    match r.1 with
    | some q => (q :: tail.1, tail.2)
    | none => tail

/-- Model of `session_status` with no agent: enumerate the project's session files
and read each, applying `_read_session`'s expiry/malformed filtering. -/
def listSessions (store : Store) (now : Int) (pk : String) :
    List SessionRecord × Store :=
  listSessionsGo now pk (Store.agentsOf store pk) store

/-- Field `started_at` of the stored record at a key, when a well-formed record
is there. -/
def storedStartedAt (s : Store) (pk an : String) : Option Int :=
  match Store.get s pk an with
  | some (.record r) => some r.started_at
  | _ => none

/-- Field `expires_at` of the stored record at a key, when a well-formed record
is there. -/
def storedExpiresAt (s : Store) (pk an : String) : Option Int :=
  match Store.get s pk an with
  | some (.record r) => some r.expires_at
  | _ => none

/-- Repeated `_write_session` renewals at given `(time, ttl)` instants. -/
def renewChain (store : Store) (stablePid : Nat) (pk an : String) :
    List (Int × Int) → Store
  | [] => store
  | (t, ttl) :: rest =>
    renewChain (writeSessionCore store t stablePid pk an ttl).2 stablePid pk an rest

/-- Each renewal in the chain happens no later than the expiry the previous
write installed (the "session kept alive by heartbeats" regime). -/
def chainOK (e : Int) : List (Int × Int) → Bool
  | [] => true
  | (t, ttl) :: rest => decide (t ≤ e) && chainOK (t + ttl) rest

/-- An ancestry oracle that never matches (e.g. `ps` unavailable). -/
def noAnc : Nat → Bool := fun _ => false

/-- A liveness oracle under which no process exists (used to instantiate
theorems about stale-session cleanup). -/
def allDead : Nat → Bool := fun _ => false

/-- A liveness oracle under which every process exists. -/
def allAlive : Nat → Bool := fun _ => true

/-- An ancestry oracle matching exactly pid 43 (used to instantiate the
two-session-file discovery scenario). -/
def ancOf43 : Nat → Bool := fun p => decide (p = 43)

/-! ## Basic store lemmas -/

theorem Store.get_erase_self (s : Store) (pk an : String) :
    Store.get (Store.erase s pk an) pk an = none := by
  induction s with
  | nil => rfl
  | cons e rest ih =>
    by_cases h : e.1 = (pk, an)
    · simpa [Store.erase, List.filter_cons, h] using ih
    · simpa [Store.erase, List.filter_cons, h, Store.get] using ih

theorem Store.get_append_left_none {l1 : Store} (l2 : Store) {pk an : String}
    (h : Store.get l1 pk an = none) :
    Store.get (l1 ++ l2) pk an = Store.get l2 pk an := by
  induction l1 with
  | nil => rfl
  | cons e rest ih =>
    obtain ⟨k, f⟩ := e
    by_cases he : k = (pk, an)
    · simp [Store.get, he] at h
    · simp only [List.cons_append, Store.get, he, if_false] at h ⊢
      exact ih h

theorem Store.get_set_self (s : Store) (pk an : String) (f : StoredFile) :
    Store.get (Store.set s pk an f) pk an = some f := by
  unfold Store.set
  rw [Store.get_append_left_none _ (Store.get_erase_self s pk an)]
  simp [Store.get]

/-! ## Lemmas about `readSession` -/

theorem readSession_some_get {store : Store} {now : Int} {pk an : String}
    {r : SessionRecord} (h : (readSession store now pk an).1 = some r) :
    Store.get store pk an = some (.record r) := by
  unfold readSession at h
  cases hget : Store.get store pk an with
  | none => rw [hget] at h; simp at h
  | some f =>
    cases f with
    | malformed => rw [hget] at h; simp at h
    | record q =>
      rw [hget] at h
      by_cases he : q.expires_at < now
      · simp [he] at h
      · simp [he] at h; rw [h]

theorem readSession_some_not_expired {store : Store} {now : Int}
    {pk an : String} {r : SessionRecord}
    (h : (readSession store now pk an).1 = some r) : ¬ r.expires_at < now := by
  have hget := readSession_some_get h
  unfold readSession at h
  rw [hget] at h
  by_cases he : r.expires_at < now
  · simp [he] at h
  · exact he

theorem readSession_of_get_record {store : Store} {now : Int}
    {pk an : String} {r : SessionRecord}
    (hget : Store.get store pk an = some (.record r))
    (hun : ¬ r.expires_at < now) :
    readSession store now pk an = (some r, store) := by
  unfold readSession
  rw [hget]
  simp [hun]

theorem readSession_some_eq {store : Store} {now : Int} {pk an : String}
    {r : SessionRecord} (h : (readSession store now pk an).1 = some r) :
    readSession store now pk an = (some r, store) :=
  readSession_of_get_record (readSession_some_get h)
    (readSession_some_not_expired h)

/-! ## Lemmas about `writeSessionCore` -/

theorem writeSessionCore_expires (store : Store) (now : Int) (stablePid : Nat)
    (pk an : String) (ttl : Int) :
    (writeSessionCore store now stablePid pk an ttl).1.expires_at = now + ttl := by
  unfold writeSessionCore
  cases h : (readSession store now pk an).1 <;> simp [h]

theorem writeSessionCore_started_some (store : Store) (now : Int)
    (stablePid : Nat) (pk an : String) (ttl : Int) (r : SessionRecord)
    (h : (readSession store now pk an).1 = some r) :
    (writeSessionCore store now stablePid pk an ttl).1.started_at
      = r.started_at := by
  unfold writeSessionCore
  simp [h]

theorem writeSessionCore_started_none (store : Store) (now : Int)
    (stablePid : Nat) (pk an : String) (ttl : Int)
    (h : (readSession store now pk an).1 = none) :
    (writeSessionCore store now stablePid pk an ttl).1.started_at = now := by
  unfold writeSessionCore
  simp [h]

theorem writeSessionCore_get (store : Store) (now : Int) (stablePid : Nat)
    (pk an : String) (ttl : Int) :
    Store.get (writeSessionCore store now stablePid pk an ttl).2 pk an
      = some (.record (writeSessionCore store now stablePid pk an ttl).1) := by
  unfold writeSessionCore
  cases h : (readSession store now pk an).1 <;>
    simp [h, Store.get_set_self]

/-! ## Lemmas about the stable sort -/

theorem insertBy_ne_nil (le : α → α → Bool) (x : α) (l : List α) :
    insertBy le x l ≠ [] := by
  cases l with
  | nil => simp [insertBy]
  | cons y ys => unfold insertBy; split <;> simp

theorem sortBy_eq_nil_iff (le : α → α → Bool) (l : List α) :
    sortBy le l = [] ↔ l = [] := by
  cases l with
  | nil => simp [sortBy]
  | cons x xs => simp [sortBy, insertBy_ne_nil]

theorem mem_insertBy (le : α → α → Bool) (x : α) (l : List α) (y : α) :
    y ∈ insertBy le x l ↔ y = x ∨ y ∈ l := by
  induction l with
  | nil => simp [insertBy]
  | cons z zs ih =>
    unfold insertBy
    split
    · simp [List.mem_cons]
    · simp only [List.mem_cons, ih]
      tauto

theorem mem_sortBy (le : α → α → Bool) (l : List α) (y : α) :
    y ∈ sortBy le l ↔ y ∈ l := by
  induction l with
  | nil => simp [sortBy]
  | cons x xs ih =>
    simp [sortBy, mem_insertBy, ih, List.mem_cons]

theorem sortBy_head_le (le : α → α → Bool)
    (hrefl : ∀ a, le a a = true)
    (htrans : ∀ a b c, le a b = true → le b c = true → le a c = true)
    (htot : ∀ a b, le a b = true ∨ le b a = true) :
    ∀ (l : List α) (h : α), (sortBy le l).head? = some h →
      ∀ x ∈ l, le h x = true := by
  intro l
  induction l with
  | nil => intro h hh x hx; simp at hx
  | cons a as ih =>
    intro h hh x hx
    simp only [sortBy] at hh
    cases hs : sortBy le as with
    | nil =>
      rw [hs] at hh
      have hha : h = a := by
        simp only [insertBy, List.head?_cons, Option.some.injEq] at hh
        exact hh.symm
      have has : as = [] := (sortBy_eq_nil_iff le as).mp hs
      rw [has] at hx
      simp only [List.mem_singleton] at hx
      rw [hha, hx]
      exact hrefl a
    | cons b bs =>
      rw [hs] at hh
      unfold insertBy at hh
      by_cases hab : le a b = true
      · rw [if_pos hab] at hh
        have hha : h = a := by
          simp only [List.head?_cons, Option.some.injEq] at hh
          exact hh.symm
        rw [hha]
        rcases List.mem_cons.mp hx with hxa | hxas
        · rw [hxa]; exact hrefl a
        · exact htrans a b x hab (ih b (by simp [hs]) x hxas)
      · rw [if_neg hab] at hh
        have hhb : h = b := by
          simp only [List.head?_cons, Option.some.injEq] at hh
          exact hh.symm
        rw [hhb]
        rcases List.mem_cons.mp hx with hxa | hxas
        · rw [hxa]
          rcases htot a b with hc | hc
          · exact absurd hc hab
          · exact hc
        · exact ih b (by simp [hs]) x hxas

/-! ## Lemmas about the discovery loop -/

theorem detectLoop_first_match (anc : Nat → Bool)
    (l1 : List (String × StoredFile)) (nm : String) (r : SessionRecord)
    (l2 : List (String × StoredFile))
    (h1 : ∀ e ∈ l1, fileMatches anc e.2 = false)
    (hr : anc r.pid = true) :
    detectLoop anc (l1 ++ (nm, .record r) :: l2) = some nm := by
  induction l1 with
  | nil => simp [detectLoop, hr]
  | cons e rest ih =>
    obtain ⟨nm', f⟩ := e
    cases f with
    | malformed =>
      simp only [List.cons_append, detectLoop]
      exact ih (fun e he => h1 e (List.mem_cons_of_mem _ he))
    | record q =>
      have hq := h1 (nm', .record q) (List.mem_cons_self _ _)
      simp only [fileMatches] at hq
      simp only [List.cons_append, detectLoop, hq, Bool.false_eq_true,
        if_false]
      exact ih (fun e he => h1 e (List.mem_cons_of_mem _ he))

theorem detectLoop_none (anc : Nat → Bool) (l : List (String × StoredFile))
    (h : ∀ e ∈ l, fileMatches anc e.2 = false) :
    detectLoop anc l = none := by
  induction l with
  | nil => rfl
  | cons e rest ih =>
    obtain ⟨nm, f⟩ := e
    cases f with
    | malformed =>
      simp only [detectLoop]
      exact ih (fun e he => h e (List.mem_cons_of_mem _ he))
    | record q =>
      have hq := h (nm, .record q) (List.mem_cons_self _ _)
      simp only [fileMatches] at hq
      simp only [detectLoop, hq, Bool.false_eq_true, if_false]
      exact ih (fun e he => h e (List.mem_cons_of_mem _ he))

/-! ## Lemmas about the session listing -/

theorem listSessionsGo_not_expired (now : Int) (pk : String) :
    ∀ (ans : List String) (st : Store) (q : SessionRecord),
      q ∈ (listSessionsGo now pk ans st).1 → ¬ q.expires_at < now := by
  intro ans
  induction ans with
  | nil => intro st q hq; simp [listSessionsGo] at hq
  | cons an rest ih =>
    intro st q hq
    simp only [listSessionsGo] at hq
    cases hr : (readSession st now pk an).1 with
    | none => rw [hr] at hq; exact ih _ q hq
    | some p =>
      rw [hr] at hq
      simp only [List.mem_cons] at hq
      rcases hq with hq | hq
      · subst hq; exact readSession_some_not_expired hr
      · exact ih _ q hq

/-! ## Lemmas about renewal chains -/

theorem renewChain_started (stablePid : Nat) (pk an : String) :
    ∀ (steps : List (Int × Int)) (store : Store) (r : SessionRecord),
      Store.get store pk an = some (.record r) →
      chainOK r.expires_at steps = true →
      storedStartedAt (renewChain store stablePid pk an steps) pk an
        = some r.started_at := by
  intro steps
  induction steps with
  | nil =>
    intro store r hget _
    simp [renewChain, storedStartedAt, hget]
  | cons step rest ih =>
    obtain ⟨t, ttl⟩ := step
    intro store r hget hchain
    simp only [chainOK, Bool.and_eq_true, decide_eq_true_eq] at hchain
    obtain ⟨hle, hrest⟩ := hchain
    have hun : ¬ r.expires_at < t := not_lt.mpr hle
    have hread : (readSession store t pk an).1 = some r := by
      rw [readSession_of_get_record hget hun]
    simp only [renewChain]
    have hget' := writeSessionCore_get store t stablePid pk an ttl
    have hstart :=
      writeSessionCore_started_some store t stablePid pk an ttl r hread
    have hexp := writeSessionCore_expires store t stablePid pk an ttl
    have hrec := ih (writeSessionCore store t stablePid pk an ttl).2
      (writeSessionCore store t stablePid pk an ttl).1 hget'
      (by rw [hexp]; exact hrest)
    rw [hrec, hstart]

/-! ## Order properties of the code-point comparison -/

theorem charListLe_refl : ∀ l : List Char, charListLe l l = true := by
  intro l
  induction l with
  | nil => rfl
  | cons a as ih =>
    simp only [charListLe, lt_irrefl a, if_false]
    exact ih

theorem charListLe_total : ∀ as bs : List Char,
    charListLe as bs = true ∨ charListLe bs as = true := by
  intro as
  induction as with
  | nil => intro bs; left; rfl
  | cons a as ih =>
    intro bs
    cases bs with
    | nil => right; rfl
    | cons b bs' =>
      rcases lt_trichotomy a b with h | h | h
      · left; simp [charListLe, h]
      · subst h
        rcases ih bs' with hc | hc
        · left; simp only [charListLe, lt_irrefl a, if_false]; exact hc
        · right; simp only [charListLe, lt_irrefl a, if_false]; exact hc
      · right; simp [charListLe, h]

theorem charListLe_trans : ∀ as bs cs : List Char,
    charListLe as bs = true → charListLe bs cs = true →
    charListLe as cs = true := by
  intro as
  induction as with
  | nil => intro bs cs _ _; rfl
  | cons a as ih =>
    intro bs cs h1 h2
    cases bs with
    | nil => simp [charListLe] at h1
    | cons b bs' =>
      cases cs with
      | nil => simp [charListLe] at h2
      | cons c cs' =>
        rcases lt_trichotomy a b with hab | hab | hab
        · rcases lt_trichotomy b c with hbc | hbc | hbc
          · simp [charListLe, lt_trans hab hbc]
          · subst hbc; simp [charListLe, hab]
          · simp only [charListLe] at h2
            rw [if_neg (lt_asymm hbc), if_pos hbc] at h2
            exact absurd h2 (by simp)
        · subst hab
          simp only [charListLe, lt_irrefl a, if_false] at h1
          rcases lt_trichotomy a c with hac | hac | hac
          · simp [charListLe, hac]
          · subst hac
            simp only [charListLe, lt_irrefl a, if_false] at h2 ⊢
            exact ih bs' cs' h1 h2
          · simp only [charListLe] at h2
            rw [if_neg (lt_asymm hac), if_pos hac] at h2
            exact absurd h2 (by simp)
        · simp only [charListLe] at h1
          rw [if_neg (lt_asymm hab), if_pos hab] at h1
          exact absurd h1 (by simp)

/-! ## Claim theorems -/

/-- C1 (counterexample): with no explicit name, no environment override and
no session files, a failing `list_agents` RPC during the remote
most-recently-active fallback makes `_resolve_agent_name` raise the error
to its caller instead of returning the unresolved `(None, None)` outcome —
refuting "the failure is treated as no candidate and the error is not
propagated". -/
theorem c1_counterexample :
    resolveAgentName [] noAnc none none none (some (.error "boom")) "p"
      = .error "boom" ∧
    resolveAgentName [] noAnc none none none (some (.error "boom")) "p"
      ≠ .ok (none, none) := by
  have h1 : resolveAgentName [] noAnc none none none
      (some (.error "boom")) "p" = .error "boom" := rfl
  refine ⟨h1, fun h => ?_⟩
  rw [h1] at h
  exact Except.noConfusion h

/-- C1 (amended): when the explicit argument, the environment override and
the local session signal are all absent, a `list_agents` failure in the
remote fallback propagates out of `_resolve_agent_name` to the caller
(whose generic handler surfaces it); it is not treated as "no candidate". -/
theorem c1_rpc_error_propagates (store : Store) (anc : Nat → Bool)
    (e1 e2 x : Option String) (pk err : String)
    (hx : strOptTruthy x = none) (he : envPick e1 e2 = none)
    (hs : sessionPick store anc pk = none) :
    resolveAgentName store anc e1 e2 x (some (.error err)) pk
      = .error err := by
  unfold resolveAgentName
  rw [hx, he, hs]
  rfl

theorem c1_rpc_error_propagates_witness :
    strOptTruthy none = none ∧ envPick none none = none ∧
    sessionPick [] noAnc "proj" = none ∧
    resolveAgentName [] noAnc none none none (some (.error "down")) "proj"
      = .error "down" :=
  ⟨rfl, rfl, rfl,
    c1_rpc_error_propagates [] noAnc none none none "proj" "down" rfl rfl rfl⟩

/-- C2 (counterexample): a filesystem error during `_write_session`'s
final `write_text` (injected as `writeOk = false`) is not swallowed: the
write raises to its caller instead of degrading to best effort. -/
theorem c2_counterexample :
    writeSession [] 0 2 false "p" "A" 300 = .error () ∧
    writeSession [] 0 2 false "p" "A" 300
      ≠ .ok (writeSessionCore [] 0 2 "p" "A" 300) := by
  have h1 : writeSession [] 0 2 false "p" "A" 300 = .error () := rfl
  refine ⟨h1, fun h => ?_⟩
  rw [h1] at h
  exact Except.noConfusion h

/-- C2 (amended): `_write_session` guards neither `mkdir` nor
`write_text`, so a filesystem error in the write step propagates for every
`(project_key, agent_name, ttl)`; in the heartbeat command it escapes to
`handle_error`, which surfaces it to the user with a non-zero exit. -/
theorem c2_write_error_raises (store : Store) (now : Int) (stablePid : Nat)
    (pk an : String) (ttl : Int) :
    writeSession store now stablePid false pk an ttl = .error () ∧
    (∀ r, (readSession store now pk an).1 = some r →
      (sessionHeartbeat store now stablePid false pk an ttl).1 = 1) := by
  refine ⟨rfl, fun r hr => ?_⟩
  unfold sessionHeartbeat
  rw [readSession_some_eq hr]
  simp [writeSession]

theorem c2_write_error_raises_witness :
    writeSession [(("p", "A"), .record ⟨"A", "p", 3, 100, 42⟩)]
        10 7 false "p" "A" 300 = .error () ∧
    (sessionHeartbeat [(("p", "A"), .record ⟨"A", "p", 3, 100, 42⟩)]
        10 7 false "p" "A" 300).1 = 1 := by
  have h := c2_write_error_raises
    [(("p", "A"), .record ⟨"A", "p", 3, 100, 42⟩)] 10 7 "p" "A" 300
  exact ⟨h.1, h.2 ⟨"A", "p", 3, 100, 42⟩ (by decide)⟩

/-- C3 (counterexample): `_read_session` consults no process-liveness
information at all, so an unexpired record whose owning pid (42) is dead —
whatever the OS process table says — is returned as-is by the next read
and its file is not deleted, refuting "treated as absent and lazily
deleted on next read". -/
theorem c3_counterexample :
    readSession [(("p", "A"), .record ⟨"A", "p", 0, 100, 42⟩)] 10 "p" "A"
      = (some ⟨"A", "p", 0, 100, 42⟩,
         [(("p", "A"), .record ⟨"A", "p", 0, 100, 42⟩)]) := by decide

/-- C3 (amended): a stored unexpired record with a dead (positive,
non-current) owning pid is returned unchanged by `_read_session`; it is
the next conflict check (`_check_session_conflict`) that treats it as no
conflict and lazily deletes the stale file. -/
theorem c3_dead_owner_cleared_on_conflict_check (store : Store) (now : Int)
    (currentPid : Nat) (alive : Nat → Bool) (pk an : String)
    (r : SessionRecord)
    (hget : Store.get store pk an = some (.record r))
    (hun : ¬ r.expires_at < now)
    (hne : r.pid ≠ currentPid) (hpos : r.pid ≠ 0)
    (hdead : alive r.pid = false) :
    readSession store now pk an = (some r, store) ∧
    checkSessionConflict store now currentPid alive pk an
      = (none, Store.erase store pk an) := by
  have hread := readSession_of_get_record hget hun
  refine ⟨hread, ?_⟩
  unfold checkSessionConflict
  rw [hread]
  simp only [if_neg hne]
  rw [if_pos ⟨hpos, hdead⟩]
  unfold clearSession
  rw [hget]
  simp

theorem c3_dead_owner_cleared_on_conflict_check_witness :
    readSession [(("q", "B"), .record ⟨"B", "q", 3, 100, 42⟩)] 10 "q" "B"
      = (some ⟨"B", "q", 3, 100, 42⟩,
         [(("q", "B"), .record ⟨"B", "q", 3, 100, 42⟩)]) ∧
    checkSessionConflict [(("q", "B"), .record ⟨"B", "q", 3, 100, 42⟩)]
        10 7 allDead "q" "B"
      = (none, Store.erase [(("q", "B"), .record ⟨"B", "q", 3, 100, 42⟩)]
          "q" "B") :=
  c3_dead_owner_cleared_on_conflict_check
    [(("q", "B"), .record ⟨"B", "q", 3, 100, 42⟩)] 10 7 allDead "q" "B"
    ⟨"B", "q", 3, 100, 42⟩ (by decide) (by decide) (by decide) (by decide) rfl

/-- C4: identity-resolution precedence — a non-empty explicit name is
returned with no source tag; otherwise a non-empty environment override
tagged `env`; otherwise a local session-file match tagged `session`;
otherwise the remote most-recently-active candidate tagged `recent`;
otherwise `(None, None)` — in each case the highest-precedence available
signal wins. -/
theorem c4_resolution_precedence (store : Store) (anc : Nat → Bool)
    (e1 e2 x : Option String) (la : Except String (List AgentInfo))
    (pk : String) :
    (∀ a, strOptTruthy x = some a →
      resolveAgentName store anc e1 e2 x (some la) pk
        = .ok (some a, none)) ∧
    (∀ e, strOptTruthy x = none → envPick e1 e2 = some e →
      resolveAgentName store anc e1 e2 x (some la) pk
        = .ok (some e, some "env")) ∧
    (∀ s, strOptTruthy x = none → envPick e1 e2 = none →
      sessionPick store anc pk = some s →
      resolveAgentName store anc e1 e2 x (some la) pk
        = .ok (some s, some "session")) ∧
    (∀ r, strOptTruthy x = none → envPick e1 e2 = none →
      sessionPick store anc pk = none →
      findResumableAgent la = .ok (some r) →
      resolveAgentName store anc e1 e2 x (some la) pk
        = .ok (r.name, some "recent")) ∧
    (strOptTruthy x = none → envPick e1 e2 = none →
      sessionPick store anc pk = none → findResumableAgent la = .ok none →
      resolveAgentName store anc e1 e2 x (some la) pk
        = .ok (none, none)) := by
  refine ⟨fun a ha => ?_, fun e hx he => ?_, fun s hx he hs => ?_,
    fun r hx he hs hf => ?_, fun hx he hs hf => ?_⟩ <;>
    unfold resolveAgentName
  · rw [ha]
  · rw [hx, he]
  · rw [hx, he, hs]
  · rw [hx, he, hs]
    simp only []
    rw [hf]
  · rw [hx, he, hs]
    simp only []
    rw [hf]

theorem c4_resolution_precedence_witness :
    resolveAgentName [] noAnc (some "EnvA") (some "EnvB") (some "Zoe")
      (some (.ok [])) "w" = .ok (some "Zoe", none) ∧
    resolveAgentName [] noAnc (some "EnvA") (some "EnvB") none
      (some (.ok [])) "w" = .ok (some "EnvA", some "env") ∧
    resolveAgentName [(("w", "Ava"), .record ⟨"Ava", "w", 1, 100, 42⟩)]
      noAnc none none none (some (.ok [])) "w"
      = .ok (some "Ava", some "session") ∧
    resolveAgentName [] noAnc none none none
      (some (.ok [⟨some "Nova", some "2026-01-01T00:00:00Z", some "normal"⟩]))
      "w" = .ok (some "Nova", some "recent") ∧
    resolveAgentName [] noAnc none none none (some (.ok [])) "w"
      = .ok (none, none) := by
  have h1 := (c4_resolution_precedence [] noAnc (some "EnvA") (some "EnvB")
    (some "Zoe") (.ok []) "w").1 "Zoe" rfl
  have h2 := (c4_resolution_precedence [] noAnc (some "EnvA") (some "EnvB")
    none (.ok []) "w").2.1 "EnvA" rfl rfl
  have h3 := (c4_resolution_precedence
    [(("w", "Ava"), .record ⟨"Ava", "w", 1, 100, 42⟩)] noAnc none none none
    (.ok []) "w").2.2.1 "Ava" rfl rfl (by decide)
  have h4 := (c4_resolution_precedence [] noAnc none none none
    (.ok [⟨some "Nova", some "2026-01-01T00:00:00Z", some "normal"⟩])
    "w").2.2.2.1
    ⟨some "Nova", some "2026-01-01T00:00:00Z", some "normal"⟩ rfl rfl rfl
    (by rfl)
  have h5 := (c4_resolution_precedence [] noAnc none none none (.ok [])
    "w").2.2.2.2 rfl rfl rfl rfl
  exact ⟨h1, h2, h3, h4, h5⟩

/-- C5: `_write_session` followed immediately by `_read_session` returns
the just-written record; its `expires_at` is exactly the write-time
`now + ttl` — derived from the renewal time, never from `started_at` —
its `started_at` is carried forward from a prior unexpired record (and
initialised to `now` otherwise), and it stays equal to that value across
an arbitrary chain of further renewals. -/
theorem c5_write_read_expiry_started (store : Store) (now : Int)
    (stablePid : Nat) (pk an : String) (ttl : Int)
    (steps : List (Int × Int)) (httl : 0 ≤ ttl)
    (hchain : chainOK (now + ttl) steps = true) :
    (readSession (writeSessionCore store now stablePid pk an ttl).2
        now pk an).1
      = some (writeSessionCore store now stablePid pk an ttl).1 ∧
    (writeSessionCore store now stablePid pk an ttl).1.expires_at
      = now + ttl ∧
    (writeSessionCore store now stablePid pk an ttl).1.started_at
      = (match (readSession store now pk an).1 with
         | some prior => prior.started_at
         | none => now) ∧
    storedStartedAt
      (renewChain (writeSessionCore store now stablePid pk an ttl).2
        stablePid pk an steps) pk an
      = some (writeSessionCore store now stablePid pk an ttl).1.started_at := by
  have hexp := writeSessionCore_expires store now stablePid pk an ttl
  have hget := writeSessionCore_get store now stablePid pk an ttl
  have hun :
      ¬ (writeSessionCore store now stablePid pk an ttl).1.expires_at
        < now := by
    rw [hexp]; omega
  refine ⟨?_, hexp, ?_, ?_⟩
  · rw [readSession_of_get_record hget hun]
  · cases h : (readSession store now pk an).1 with
    | some prior =>
      exact writeSessionCore_started_some store now stablePid pk an ttl
        prior h
    | none =>
      exact writeSessionCore_started_none store now stablePid pk an ttl h
  · exact renewChain_started stablePid pk an steps _ _ hget
      (by rw [hexp]; exact hchain)

theorem c5_write_read_expiry_started_witness :
    (0:Int) ≤ 300 ∧ chainOK (10 + 300) [(200, 300), (450, 100)] = true ∧
    (writeSessionCore [(("p5", "Kai"), .record ⟨"Kai", "p5", 3, 50, 9⟩)]
        10 7 "p5" "Kai" 300).1.expires_at = 10 + 300 ∧
    storedStartedAt
      (renewChain (writeSessionCore
          [(("p5", "Kai"), .record ⟨"Kai", "p5", 3, 50, 9⟩)]
          10 7 "p5" "Kai" 300).2
        7 "p5" "Kai" [(200, 300), (450, 100)]) "p5" "Kai" = some 3 := by
  have h := c5_write_read_expiry_started
    [(("p5", "Kai"), .record ⟨"Kai", "p5", 3, 50, 9⟩)] 10 7 "p5" "Kai" 300
    [(200, 300), (450, 100)] (by decide) (by decide)
  refine ⟨by decide, by decide, h.2.1, ?_⟩
  rw [h.2.2.2]
  decide

/-- C6: a stored record whose `expires_at` is past is deleted by read as a
side effect and reads as absent; every record the listing returns is
unexpired (so an expired record is subsequently absent from `list`); and a
malformed stored record reads as absent — the model's read, mirroring the
catch-all `except` in `_read_session`, has no error outcome at all, so no
parse error can propagate. -/
theorem c6_expired_and_malformed_read (store : Store) (now : Int)
    (pk an : String) (r : SessionRecord) :
    (Store.get store pk an = some (.record r) → r.expires_at < now →
      readSession store now pk an = (none, Store.erase store pk an)) ∧
    (Store.get store pk an = some .malformed →
      readSession store now pk an = (none, store)) ∧
    (∀ q ∈ (listSessions store now pk).1, ¬ q.expires_at < now) := by
  refine ⟨fun hget hexp => ?_, fun hget => ?_, fun q hq => ?_⟩
  · unfold readSession
    rw [hget]
    simp [hexp]
  · unfold readSession
    rw [hget]
  · unfold listSessions at hq
    exact listSessionsGo_not_expired now pk _ _ q hq

theorem c6_expired_and_malformed_read_witness :
    Store.get [(("p6", "Old"), .record ⟨"Old", "p6", 1, 5, 9⟩)] "p6" "Old"
      = some (.record ⟨"Old", "p6", 1, 5, 9⟩) ∧
    (5:Int) < 10 ∧
    readSession [(("p6", "Old"), .record ⟨"Old", "p6", 1, 5, 9⟩)]
        10 "p6" "Old"
      = (none, Store.erase [(("p6", "Old"), .record ⟨"Old", "p6", 1, 5, 9⟩)]
          "p6" "Old") ∧
    readSession [(("p6", "Bad"), .malformed)] 10 "p6" "Bad"
      = (none, [(("p6", "Bad"), .malformed)]) := by
  have h := c6_expired_and_malformed_read
    [(("p6", "Old"), .record ⟨"Old", "p6", 1, 5, 9⟩)] 10 "p6" "Old"
    ⟨"Old", "p6", 1, 5, 9⟩
  have h2 := c6_expired_and_malformed_read
    [(("p6", "Bad"), .malformed)] 10 "p6" "Bad" ⟨"Bad", "p6", 1, 5, 9⟩
  exact ⟨by decide, by decide, h.1 (by decide) (by decide),
    h2.2.1 (by decide)⟩

/-- C7: conflict-aware registration over a stored readable record — owner
equal to the current process id means no conflict; a dead (positive,
non-current) owner means no conflict with the stale file cleared; a live
foreign owner without `--force` makes `register` refuse, surfacing the
conflicting pid and the remaining time to expiry (`expires_at - now`,
which the CLI renders through `_format_session_expiry`). -/
theorem c7_conflict_protocol (store : Store) (now : Int) (currentPid : Nat)
    (alive : Nat → Bool) (stablePid : Nat) (pk an : String)
    (r : SessionRecord) (ttl : Int) (remote : Except String String)
    (hread : (readSession store now pk an).1 = some r) :
    (r.pid = currentPid →
      checkSessionConflict store now currentPid alive pk an
        = (none, store)) ∧
    (r.pid ≠ currentPid → r.pid ≠ 0 → alive r.pid = false →
      checkSessionConflict store now currentPid alive pk an
        = (none, Store.erase store pk an)) ∧
    (r.pid ≠ currentPid → alive r.pid = true → an ≠ "" →
      checkSessionConflict store now currentPid alive pk an
        = (some r, store) ∧
      register store now currentPid alive stablePid (some an) false remote
          pk ttl
        = (.conflict r.pid (r.expires_at - now), store)) := by
  have heq := readSession_some_eq hread
  have hget := readSession_some_get hread
  refine ⟨fun hp => ?_, fun hne hpos hdead => ?_,
    fun hne halive han => ?_⟩
  · unfold checkSessionConflict
    rw [heq]
    simp [hp]
  · unfold checkSessionConflict
    rw [heq]
    simp only [if_neg hne]
    rw [if_pos ⟨hpos, hdead⟩]
    unfold clearSession
    rw [hget]
    simp
  · have hcond : ¬ (r.pid ≠ 0 ∧ alive r.pid = false) := by
      intro hc
      rw [halive] at hc
      exact Bool.noConfusion hc.2
    have hcc : checkSessionConflict store now currentPid alive pk an
        = (some r, store) := by
      unfold checkSessionConflict
      rw [heq]
      simp only [if_neg hne]
      rw [if_neg hcond]
    refine ⟨hcc, ?_⟩
    unfold register
    rw [show strOptTruthy (some an) = some an from by
      simp [strOptTruthy, han]]
    simp only []
    rw [hcc]

theorem c7_conflict_protocol_witness :
    checkSessionConflict
        [(("p7", "Rex"), .record ⟨"Rex", "p7", 3, 100, 42⟩)]
        10 7 allAlive "p7" "Rex"
      = (some ⟨"Rex", "p7", 3, 100, 42⟩,
         [(("p7", "Rex"), .record ⟨"Rex", "p7", 3, 100, 42⟩)]) ∧
    register [(("p7", "Rex"), .record ⟨"Rex", "p7", 3, 100, 42⟩)]
        10 7 allAlive 7 (some "Rex") false (.ok "Rex") "p7" 300
      = (.conflict 42 90,
         [(("p7", "Rex"), .record ⟨"Rex", "p7", 3, 100, 42⟩)]) := by
  have h := c7_conflict_protocol
    [(("p7", "Rex"), .record ⟨"Rex", "p7", 3, 100, 42⟩)] 10 7 allAlive 7
    "p7" "Rex" ⟨"Rex", "p7", 3, 100, 42⟩ 300 (.ok "Rex") (by decide)
  have h3 := h.2.2 (by decide) rfl (by decide)
  refine ⟨h3.1, ?_⟩
  rw [h3.2]
  decide

/-- C10 (implicit): the heartbeat command with no active session record
(absent, expired, or malformed) exits 1 and leaves the store exactly as
the read left it — unchanged except for the lazy deletion of an expired
file, with nothing created or renewed; only when an unexpired record
already existed does it exit 0 and write a fresh `now + ttl` expiry,
preserving `started_at`. -/
theorem c10_heartbeat_no_session (store : Store) (now : Int)
    (stablePid : Nat) (pk an : String) (ttl : Int) :
    ((readSession store now pk an).1 = none →
      sessionHeartbeat store now stablePid true pk an ttl
        = (1, (readSession store now pk an).2)) ∧
    (∀ r, (readSession store now pk an).1 = some r → 0 ≤ ttl →
      (sessionHeartbeat store now stablePid true pk an ttl).1 = 0 ∧
      storedExpiresAt
          (sessionHeartbeat store now stablePid true pk an ttl).2 pk an
        = some (now + ttl) ∧
      storedStartedAt
          (sessionHeartbeat store now stablePid true pk an ttl).2 pk an
        = some r.started_at) := by
  constructor
  · intro h
    simp only [sessionHeartbeat, h]
  · intro r hr httl
    have heq := readSession_some_eq hr
    have hW : sessionHeartbeat store now stablePid true pk an ttl
        = (0, (writeSessionCore store now stablePid pk an ttl).2) := by
      simp only [sessionHeartbeat, heq, writeSession]
      rfl
    rw [hW]
    refine ⟨rfl, ?_, ?_⟩
    · unfold storedExpiresAt
      rw [writeSessionCore_get]
      exact congrArg some (writeSessionCore_expires store now stablePid pk an ttl)
    · unfold storedStartedAt
      rw [writeSessionCore_get]
      exact congrArg some (writeSessionCore_started_some store now
        stablePid pk an ttl r hr)

theorem c10_heartbeat_no_session_witness :
    sessionHeartbeat [(("pA", "Gone"), .record ⟨"Gone", "pA", 1, 5, 9⟩)]
        10 7 true "pA" "Gone" 300 = (1, []) ∧
    (sessionHeartbeat [(("pB", "Live"), .record ⟨"Live", "pB", 2, 50, 9⟩)]
        10 7 true "pB" "Live" 300).1 = 0 ∧
    storedExpiresAt
        (sessionHeartbeat
          [(("pB", "Live"), .record ⟨"Live", "pB", 2, 50, 9⟩)]
          10 7 true "pB" "Live" 300).2 "pB" "Live" = some 310 ∧
    storedStartedAt
        (sessionHeartbeat
          [(("pB", "Live"), .record ⟨"Live", "pB", 2, 50, 9⟩)]
          10 7 true "pB" "Live" 300).2 "pB" "Live" = some 2 := by
  have h1 := (c10_heartbeat_no_session
    [(("pA", "Gone"), .record ⟨"Gone", "pA", 1, 5, 9⟩)] 10 7 "pA" "Gone"
    300).1 (by decide)
  have h2 := (c10_heartbeat_no_session
    [(("pB", "Live"), .record ⟨"Live", "pB", 2, 50, 9⟩)] 10 7 "pB" "Live"
    300).2 ⟨"Live", "pB", 2, 50, 9⟩ (by decide) (by decide)
  refine ⟨?_, h2.1, ?_, h2.2.2⟩
  · rw [h1]; decide
  · rw [h2.2.1]; decide

/-- C8: session discovery — a single session file wins with no ancestry
check (even if unparseable); with several files, the first file whose
stored pid is an ancestor of the current process is selected, files before
it that are malformed or non-ancestor-owned being skipped (so with two
files, one ancestor-owned and one not, the ancestor match is selected);
with several files and no match, or with no files at all, discovery yields
no answer. -/
theorem c8_session_discovery (store : Store) (anc : Nat → Bool)
    (pk : String) :
    (∀ f, projectFiles store pk = [f] →
      detectAgentFromSession store anc pk = some f.1) ∧
    (∀ l1 nm r l2, projectFiles store pk = l1 ++ (nm, .record r) :: l2 →
      2 ≤ (projectFiles store pk).length →
      (∀ e ∈ l1, fileMatches anc e.2 = false) →
      anc r.pid = true →
      detectAgentFromSession store anc pk = some nm) ∧
    ((∀ e ∈ projectFiles store pk, fileMatches anc e.2 = false) →
      2 ≤ (projectFiles store pk).length →
      detectAgentFromSession store anc pk = none) ∧
    (projectFiles store pk = [] →
      detectAgentFromSession store anc pk = none) := by
  refine ⟨fun f hf => ?_, fun l1 nm r l2 hpf hlen h1 hr => ?_,
    fun hall hlen => ?_, fun h0 => ?_⟩
  · unfold detectAgentFromSession
    rw [hf]
    simp
  · have hne : projectFiles store pk ≠ [] := by
      intro h
      rw [h] at hlen
      simp at hlen
    have hlen1 : (projectFiles store pk).length ≠ 1 := by omega
    unfold detectAgentFromSession
    rw [if_neg hne, if_neg hlen1, hpf]
    exact detectLoop_first_match anc l1 nm r l2 h1 hr
  · have hne : projectFiles store pk ≠ [] := by
      intro h
      rw [h] at hlen
      simp at hlen
    have hlen1 : (projectFiles store pk).length ≠ 1 := by omega
    unfold detectAgentFromSession
    rw [if_neg hne, if_neg hlen1]
    exact detectLoop_none anc _ hall
  · unfold detectAgentFromSession
    rw [if_pos h0]

theorem c8_session_discovery_witness :
    detectAgentFromSession [(("p8", "Solo"), .malformed)] noAnc "p8"
      = some "Solo" ∧
    detectAgentFromSession
      [(("p8", "Ann"), .record ⟨"Ann", "p8", 3, 100, 42⟩),
       (("p8", "Bob"), .record ⟨"Bob", "p8", 3, 100, 43⟩)] ancOf43 "p8"
      = some "Bob" ∧
    detectAgentFromSession
      [(("p8", "Ann"), .record ⟨"Ann", "p8", 3, 100, 42⟩),
       (("p8", "Bob"), .record ⟨"Bob", "p8", 3, 100, 43⟩)] noAnc "p8"
      = none := by
  have h1 := (c8_session_discovery [(("p8", "Solo"), .malformed)] noAnc
    "p8").1 ("Solo", .malformed) (by decide)
  have h2 := (c8_session_discovery
    [(("p8", "Ann"), .record ⟨"Ann", "p8", 3, 100, 42⟩),
     (("p8", "Bob"), .record ⟨"Bob", "p8", 3, 100, 43⟩)] ancOf43
    "p8").2.1 [("Ann", .record ⟨"Ann", "p8", 3, 100, 42⟩)] "Bob"
    ⟨"Bob", "p8", 3, 100, 43⟩ [] (by decide) (by decide) (by decide) rfl
  have h3 := (c8_session_discovery
    [(("p8", "Ann"), .record ⟨"Ann", "p8", 3, 100, 42⟩),
     (("p8", "Bob"), .record ⟨"Bob", "p8", 3, 100, 43⟩)] noAnc
    "p8").2.2.1 (by decide) (by decide)
  exact ⟨h1, h2, h3⟩

/-- C9: the remote most-recently-active fallback keeps only agents whose
(defaulted) name does not carry the `Deleted-` marker and whose contact
policy is not `block_all`; when it returns a candidate, that candidate
passed the filter and its last-activity key is maximal among all filtered
agents (and when it returns none the filtered list is empty); on the
spec's scenario it selects Nova, never the deleted-marked entry. -/
theorem c9_resumable_fallback (agents : List AgentInfo) :
    (findResumableCore agents = none ↔ activeAgents agents = []) ∧
    (∀ a, a ∈ activeAgents agents ↔
      a ∈ agents ∧ deletedMarked (a.name.getD "") = false ∧
      a.contact_policy ≠ some "block_all") ∧
    (∀ top, findResumableCore agents = some top →
      top ∈ activeAgents agents ∧
      deletedMarked (top.name.getD "") = false ∧
      top.contact_policy ≠ some "block_all" ∧
      ∀ a ∈ activeAgents agents,
        strLeB (a.last_active_ts.getD "") (top.last_active_ts.getD "")
          = true) ∧
    findResumableCore
      [⟨some "Deleted-3", none, none⟩,
       ⟨some "Nova", some "2026-01-01T00:00:00Z", some "normal"⟩]
      = some ⟨some "Nova", some "2026-01-01T00:00:00Z", some "normal"⟩ := by
  refine ⟨⟨fun h => ?_, fun h => ?_⟩, fun a => ?_, fun top htop => ?_,
    by decide⟩
  · unfold findResumableCore sortAgentsDesc at h
    cases hl : sortBy agentTsGe (activeAgents agents) with
    | nil => exact (sortBy_eq_nil_iff _ _).mp hl
    | cons y ys => rw [hl] at h; simp at h
  · unfold findResumableCore sortAgentsDesc
    rw [h]
    rfl
  · unfold activeAgents
    rw [List.mem_filter]
    simp only [Bool.and_eq_true, Bool.not_eq_true',
      decide_eq_false_iff_not]
  · unfold findResumableCore sortAgentsDesc at htop
    have hmem : top ∈ activeAgents agents := by
      cases hl : sortBy agentTsGe (activeAgents agents) with
      | nil => rw [hl] at htop; simp at htop
      | cons y ys =>
        rw [hl] at htop
        simp only [List.head?_cons, Option.some.injEq] at htop
        rw [← htop]
        have : y ∈ sortBy agentTsGe (activeAgents agents) := by
          rw [hl]; exact List.mem_cons_self y ys
        exact (mem_sortBy _ _ _).mp this
    have hfil := List.of_mem_filter hmem
    simp only [Bool.and_eq_true, Bool.not_eq_true',
      decide_eq_false_iff_not] at hfil
    refine ⟨hmem, hfil.1, hfil.2, fun a ha => ?_⟩
    exact sortBy_head_le agentTsGe
      (fun a => charListLe_refl _)
      (fun a b c hab hbc => charListLe_trans _ _ _ hbc hab)
      (fun a b => charListLe_total _ _)
      (activeAgents agents) top htop a ha

theorem c9_resumable_fallback_witness :
    findResumableCore
      [⟨some "Deleted-3", none, none⟩,
       ⟨some "Nova", some "2026-01-01T00:00:00Z", some "normal"⟩]
      = some ⟨some "Nova", some "2026-01-01T00:00:00Z", some "normal"⟩ ∧
    (⟨some "Nova", some "2026-01-01T00:00:00Z", some "normal"⟩ : AgentInfo)
      ∈ activeAgents
        [⟨some "Deleted-3", none, none⟩,
         ⟨some "Nova", some "2026-01-01T00:00:00Z", some "normal"⟩] ∧
    deletedMarked "Nova" = false := by
  have h := c9_resumable_fallback
    [⟨some "Deleted-3", none, none⟩,
     ⟨some "Nova", some "2026-01-01T00:00:00Z", some "normal"⟩]
  have h2 := h.2.2.1
    ⟨some "Nova", some "2026-01-01T00:00:00Z", some "normal"⟩ h.2.2.2
  exact ⟨h.2.2.2, h2.1, h2.2.1⟩

end AgentMail
